import Mathlib

/-!
# mdutility — verification of the bootstrap orchestration and conversion-client spec

Shallow embedding of the startup scripts (`Start_application.ps1`, the bash
start scripts) and of the two conversion pages of the Next.js frontend
(`word-to-md/page.tsx`, the markdown-to-word page), together with proofs of
the specification's testable properties about them.  Each definition is
translated from the corresponding source location, cited in its doc comment.
-/

namespace Mdutility

/-! ## Word/PDF → Markdown upload page (`src/frontend/app/word-to-md/page.tsx`) -/

namespace WordToMd

/-- A file handed to the upload handler: the page only reads `f.name` and
`f.size` before dispatch. -/
structure UploadFile where
  name : String
  size : Nat
deriving DecidableEq, Repr

/-- `const accepted = [".docx", ".pdf"]` (page.tsx line 28). -/
def acceptedExts : List String := [".docx", ".pdf"]

/-- `const MAX_BYTES = 3 * 1024 * 1024` (page.tsx line 29). -/
def maxUploadBytes : Nat := 3 * 1024 * 1024

/-- JS `name.split(".")` over the character list: splits on every dot,
keeping empty segments, and always yields at least one segment. -/
def splitOnDot : List Char → List (List Char)
  | [] => [[]]
  | c :: cs =>
    if c = '.' then [] :: splitOnDot cs
    else
      match splitOnDot cs with
      | s :: ss => (c :: s) :: ss
      | [] => [[c]]

/-- `const ext = "." + (f.name.split(".").pop() || "").toLowerCase()`
(page.tsx line 39): the last dot-separated component of the name, lowercased,
with a leading dot; `pop()` of a single-element split is the whole name, and
the `|| ""` fallback coincides with the empty-string default. -/
def extOf (name : String) : String :=
  "." ++ String.mk (((splitOnDot name.toList).getLastD []).map Char.toLower)

/-- Where the handler ends: no file picked, a local rejection carrying the
error message set via `setError`, or the `fetch` POST actually issued. -/
inductive UploadOutcome where
  | idle
  | rejectedType (msg : String)
  | rejectedSize (msg : String)
  | request (url : String) (fileName : String)
deriving DecidableEq, Repr

/-- The fixed endpoint of the conversion request (page.tsx line 58). -/
def wordToMdEndpoint : String := "http://localhost:8000/api/convert/word-to-md"

/-- Model of `handleFiles` (page.tsx lines 31-61) up to the dispatch of the
network request: empty selection returns silently; an extension outside
`accepted` sets the unsupported-type error and returns; a size above
`MAX_BYTES` sets the too-large error and returns; otherwise the multipart
POST to the converter endpoint is issued with the file. -/
def handleFiles (files : List UploadFile) : UploadOutcome :=
  match files with
  | [] => .idle
  | f :: _ =>
    let ext := extOf f.name
    if acceptedExts.contains ext = false then
      .rejectedType ("Unsupported file type: " ++ ext ++ ". Supported: .docx, .pdf")
    else if maxUploadBytes < f.size then
      .rejectedSize "File too large. Maximum allowed size is 3 MB."
    else
      .request wordToMdEndpoint f.name

/-- Whether the outcome contains a network call. -/
def isNetworkCall : UploadOutcome → Bool
  | .request _ _ => true
  | _ => false

end WordToMd

/-! ## Bootstrap orchestrator: isolated environment (venv) creation guard -/

namespace Bootstrap

/-- The slice of filesystem state the venv guard reads and writes: whether
`backend/.utility` exists, plus a count of `python -m venv` invocations
actually performed (the creation side effect). -/
structure VenvFS where
  venvExists : Bool
  venvCreations : Nat
deriving DecidableEq, Repr

/-- Model of the venv creation guard, `if [ ! -d "$VENV_DIR" ]; then
"$PYTHON_CMD" -m venv "$VENV_DIR"; else echo "Virtualenv exists"; fi`
(start-application.sh lines 34-39; same shape in Start_application.ps1 lines
82-87): when the directory is absent the interpreter is invoked to create it
(recorded as one creation, after which the directory exists); when present
nothing is done. -/
def ensure_isolated_environment (fs : VenvFS) : VenvFS :=
  if fs.venvExists then fs
  else { venvExists := true, venvCreations := fs.venvCreations + 1 }

end Bootstrap

/-! ## Bootstrap orchestrator: runtime (python) resolution -/

namespace Bootstrap

/-- `$candidates = @('python', 'python3', 'py')` (Start_application.ps1
line 59). -/
def psRuntimeCandidates : List String := ["python", "python3", "py"]

/-- Model of the loop body of `Get-PythonCmd` (Start_application.ps1 lines
58-71): for each candidate in order, if `Get-Command` resolves it (`avail`),
it is returned — except that for `py` the probe `py -3 --version` must also
succeed (`py3Probe`; on a probe failure the `catch { continue }` moves to the
next candidate), and a successful `py` is spelled `py -3`.  When the list is
exhausted the function returns null. -/
def psResolveGo (avail : String → Bool) (py3Probe : Bool) : List String → Option String
  | [] => none
  | c :: rest =>
    if avail c then
      if c = "py" then
        if py3Probe then some "py -3" else psResolveGo avail py3Probe rest
      else some c
    else psResolveGo avail py3Probe rest

/-- `Get-PythonCmd` applied to its candidate list. -/
def getPythonCmd (avail : String → Bool) (py3Probe : Bool) : Option String :=
  psResolveGo avail py3Probe psRuntimeCandidates

/-- The effective availability test `Get-PythonCmd` applies to a candidate:
the command resolves, and for `py` the `py -3` probe also succeeds. -/
def psAvailable (avail : String → Bool) (py3Probe : Bool) (c : String) : Bool :=
  avail c && (if c = "py" then py3Probe else true)

/-- How a chosen candidate is spelled in the return value (`py` → `py -3`). -/
def psDisplay (c : String) : String :=
  if c = "py" then "py -3" else c

/-- The bash candidate order (start-application.sh lines 21-29): `python3`
then `python`. -/
def shRuntimeCandidates : List String := ["python3", "python"]

/-- Model of the bash interpreter detection (start-application.sh lines
21-29): `command -v python3` first, then `command -v python`, else empty. -/
def shPythonCmd (avail : String → Bool) : Option String :=
  if avail "python3" then some "python3"
  else if avail "python" then some "python"
  else none

/-- Outcome of the resolve-runtime step of either script: a resolved command,
or a fatal exit with the given code. -/
inductive ResolveStep where
  | ok (cmd : String)
  | fatal (exitCode : Nat)
deriving DecidableEq, Repr

/-- Start_application.ps1 lines 73-77: a null result from `Get-PythonCmd`
produces `Write-Error` and `exit 1`; no retry. -/
def psResolveRuntime (avail : String → Bool) (py3Probe : Bool) : ResolveStep :=
  match getPythonCmd avail py3Probe with
  | some c => .ok c
  | none => .fatal 1

/-- start-application.sh lines 21-29: when neither candidate resolves the
script prints to stderr and runs `exit 1`; no retry. -/
def shResolveRuntime (avail : String → Bool) : ResolveStep :=
  match shPythonCmd avail with
  | some c => .ok c
  | none => .fatal 1

end Bootstrap

/-! ## Markdown → Word page: drag-and-drop file selection (`src/unnamed/part_005`) -/

namespace MdToWord

/-- A dropped file; only its name is consulted by the drop handler. -/
structure DropFile where
  name : String
deriving DecidableEq, Repr

/-- The page state the drop handler touches: the selected-file list and the
error banner. -/
structure MdPageState where
  mdFiles : List DropFile
  error : Option String
deriving DecidableEq, Repr

/-- `f.name.toLowerCase().endsWith(".md")` (part_005 line 71), over the
character list of the lowercased name. -/
def endsWithMd (name : String) : Bool :=
  ".md".toList.isSuffixOf (name.toList.map Char.toLower)

/-- Model of `onDrop` (part_005 lines 66-76): when the drop carries at least
one file, the files whose lowercased names end in `.md` are filtered out and,
if any remain, appended to `mdFiles`; in every path the error state is left
untouched and no error is surfaced. -/
def onDrop (st : MdPageState) (dropped : List DropFile) : MdPageState :=
  if 0 < dropped.length then
    let kept := dropped.filter (fun f => endsWithMd f.name)
    if 0 < kept.length then { st with mdFiles := st.mdFiles ++ kept }
    else st
  else st

end MdToWord

/-! ## Bootstrap orchestrator: backend health wait (start-application.sh lines 97-111) -/

namespace Bootstrap

/-- `TIMEOUT=60` (start-application.sh line 98). -/
def healthTimeoutSecs : Nat := 60

/-- `HEALTH_URL="http://127.0.0.1:8000/health"` (start-application.sh
line 97): the single, fixed endpoint the loop polls. -/
def healthUrl : String := "http://127.0.0.1:8000/health"

/-- Model of the wait loop (start-application.sh lines 100-111), one
iteration per elapsed second since the poll interval is the `sleep 1` at the
loop's end: at elapsed second `t` the loop first issues
`curl -sSf "$HEALTH_URL"` (abstracted as `healthy t`); on success it breaks
reporting success; otherwise, if at least `TIMEOUT` seconds have elapsed it
prints a warning to stderr and breaks; otherwise it sleeps one second and
retries.  Returns (curl succeeded?, elapsed seconds at loop exit). -/
def awaitHealthFrom (healthy : Nat → Bool) (t : Nat) : Bool × Nat :=
  if healthy t then (true, t)
  else if healthTimeoutSecs ≤ t then (false, t)
  else awaitHealthFrom healthy (t + 1)
termination_by healthTimeoutSecs + 1 - t
decreasing_by omega

/-- The wait loop entered at elapsed time zero (`START=$(date +%s)`). -/
def await_health (healthy : Nat → Bool) : Bool × Nat :=
  awaitHealthFrom healthy 0

/-- Model of the step after the wait loop (start-application.sh lines
113-125): `if [ -d "$FRONTEND_DIR" ] && [ -n "$PKG_MGR" ]` decides whether
the frontend production server is started; the health result is not
consulted and the script never aborts here, so a timeout is non-fatal. -/
def shStartFrontendAfterHealth (frontendDirExists pkgMgrFound : Bool)
    (_healthResult : Bool × Nat) : Bool :=
  frontendDirExists && pkgMgrFound

end Bootstrap

/-! ## Markdown → Word conversion contract (`src/unnamed/part_005`) -/

namespace MdToWord

/-- A Markdown source file submitted for conversion. -/
structure MdSource where
  name : String
  content : String
deriving DecidableEq, Repr

/-- One converted output, `{ filename, b64 }` (part_005 lines 6-9). -/
structure ConvertedFile where
  filename : String
  b64 : String
deriving DecidableEq, Repr

/-- The response shape of `POST /api/convert/md-to-word`,
`{ files: ConvertedFile[], zip: string | null }` (part_005 lines 11-14). -/
structure ConvertResponse where
  files : List ConvertedFile
  zip : Option String
deriving DecidableEq, Repr

/-- Modelled from the spec: the backend handler of
`POST /api/convert/md-to-word` is not part of the given source — only its
frontend caller and the `ConvertResponse` type (part_005 lines 6-14, 95-106)
are.  Per the spec's conversion contract: at least one primary file is
required; the output is one `{filename, base64 document}` pair per input
Markdown file; when more than one output is produced a base64 archive of all
outputs is also returned, otherwise no archive.  The per-file conversion and
the archive encoding belong to the external engine the spec leaves abstract,
so they are parameters; the optional style-template file does not change the
output count. -/
def convert_markdown_to_word (convertOne : MdSource → ConvertedFile)
    (mkArchive : List ConvertedFile → String)
    (files : List MdSource) (_theme : Option MdSource) : Option ConvertResponse :=
  match files with
  | [] => none
  | _ :: _ =>
    let outs := files.map convertOne
    some { files := outs, zip := if 1 < outs.length then some (mkArchive outs) else none }

/-- Model of the zip-download gating in the results pane (part_005, results
section): the "Download All (ZIP)" control is rendered iff
`result.files.length > 1 && result.zip`. -/
def downloadZipShown (r : ConvertResponse) : Bool :=
  (1 < r.files.length : Bool) && r.zip.isSome

end MdToWord

/-! ## Bootstrap orchestrator: dependency install and package-manager steps -/

namespace Bootstrap

/-- Outcome of the backend dependency-install step. -/
inductive InstallStep where
  | installed
  | skippedWithWarning
  | aborted (exitCode : Nat)
deriving DecidableEq, Repr

/-- Whether a step outcome aborts the bootstrap sequence. -/
def stepAborts : InstallStep → Bool
  | .aborted _ => true
  | _ => false

/-- Model of start-application.sh lines 50-56: `if [ -f "$REQ_FILE" ]` guards
the `pip install -r`; with the manifest present the install runs (`pipOk`
abstracts pip's exit status; a failure aborts under `set -euo pipefail`);
with it absent the script prints "requirements.txt not found, skipping
Python dependency install" and continues. -/
def sh_install_dependencies (manifestPresent pipOk : Bool) : InstallStep :=
  if manifestPresent then
    if pipOk then .installed else .aborted 1
  else .skippedWithWarning

/-- Model of Start_application.ps1 lines 105-111: `if (Test-Path $reqFile)`
guards the install; absence produces `Write-Warning` and the script
continues (a native pip failure does not throw under this script, so no
abort path exists here). -/
def ps_install_dependencies (manifestPresent : Bool) : InstallStep :=
  if manifestPresent then .installed else .skippedWithWarning

/-- Model of the runapp bash script, src/unnamed/part_002 lines 55-58:
`pip install -r requirements.txt` runs with no existence guard under
`set -e`.  When the manifest is absent pip exits non-zero (its documented
"Could not open requirements file" error), which `set -e` turns into a
script abort. -/
def runapp_install_dependencies (manifestPresent pipOk : Bool) : InstallStep :=
  if manifestPresent then
    if pipOk then .installed else .aborted 1
  else .aborted 1

/-- Outcome of the frontend install/build step. -/
inductive FrontendSetup where
  | done
  | skippedNoFolder
  | skippedNoManager
  | fatalNoNpm (exitCode : Nat)
deriving DecidableEq, Repr

/-- Model of src/unnamed/part_000 lines 64-83 (the older Start_application
PowerShell variant): a missing frontend folder is only a warning, but inside
the folder branch `Get-Command npm` failing lands in the catch that runs
`Write-Error` and `exit 1` — pnpm/yarn are never consulted despite the
comment above the block. -/
def ps1v1_frontend_setup (frontendDirExists npmAvailable : Bool) : FrontendSetup :=
  if frontendDirExists = false then .skippedNoFolder
  else if npmAvailable then .done
  else .fatalNoNpm 1

/-- In part_000 the backend is only started at step 5 (lines 85-88), after
the frontend step; the `exit 1` path therefore ends the run with the backend
never spawned. -/
def ps1v1_backendStarted (frontendDirExists npmAvailable : Bool) : Bool :=
  match ps1v1_frontend_setup frontendDirExists npmAvailable with
  | .fatalNoNpm _ => false
  | _ => true

/-- Model of the package-manager detection of start-application.sh lines
59-66: `command -v npm`, then `pnpm`, then `yarn`, else empty. -/
def sh_resolve_package_manager (avail : String → Bool) : Option String :=
  if avail "npm" then some "npm"
  else if avail "pnpm" then some "pnpm"
  else if avail "yarn" then some "yarn"
  else none

/-- Model of `Get-PackageManager` (Start_application.ps1 lines 114-119):
the same npm/pnpm/yarn cascade via `Get-Command -ErrorAction
SilentlyContinue`. -/
def ps_get_package_manager (avail : String → Bool) : Option String :=
  if avail "npm" then some "npm"
  else if avail "pnpm" then some "pnpm"
  else if avail "yarn" then some "yarn"
  else none

/-- What a run of the frontend gate leaves behind. -/
structure ShRunOutcome where
  frontendInstalled : Bool
  backendStarted : Bool
  exitedWithError : Bool
deriving DecidableEq, Repr

/-- Model of the frontend gating of start-application.sh lines 68-86 and the
subsequent backend start (lines 88-92): an empty `PKG_MGR` prints "No
package manager found (npm/pnpm/yarn). Skipping frontend steps." to stderr
and falls through; a missing frontend folder likewise; in every case the
script reaches `"$VENV_PY" -m uvicorn ... &` and starts the backend without
an error exit. -/
def sh_run_frontendGate (avail : String → Bool) (frontendDirExists : Bool) : ShRunOutcome :=
  match sh_resolve_package_manager avail with
  | none => { frontendInstalled := false, backendStarted := true, exitedWithError := false }
  | some _ =>
    if frontendDirExists then
      { frontendInstalled := true, backendStarted := true, exitedWithError := false }
    else
      { frontendInstalled := false, backendStarted := true, exitedWithError := false }

/-- Model of the corresponding gating in Start_application.ps1 lines
122-147: a null package manager produces `Write-Warning` and skips the
install/build; step 5 (line 152) then starts the backend via `Start-Process`
unconditionally. -/
def ps2_run_frontendGate (avail : String → Bool) (frontendDirExists : Bool) : ShRunOutcome :=
  { frontendInstalled := frontendDirExists && (ps_get_package_manager avail).isSome,
    backendStarted := true,
    exitedWithError := false }

end Bootstrap

/-! ## The runapp bash script's process supervision (`src/unnamed/part_002`) -/

namespace Runapp

/-- The three OS processes the script's lifetime creates. -/
inductive ProcKind where
  | backendSubshell
  | backendServer
  | frontendServer
deriving DecidableEq, Repr

/-- A spawned process: its pid and whether it is currently running. -/
structure Proc where
  pid : Nat
  kind : ProcKind
  alive : Bool
deriving DecidableEq, Repr

/-- The script state the supervision lines touch: the spawned processes,
bash's `$!` (pid of the most recent process backgrounded by the main
shell), the `BACKEND_PID`/`FRONTEND_PID` variables, and the pid list the
currently installed EXIT trap will `kill` (the trap command is written in
double quotes, so the pids are expanded at `trap` time). -/
structure OrchState where
  procs : List Proc
  lastBgPid : Option Nat
  backendPidVar : Option Nat
  frontendPidVar : Option Nat
  trapCmd : List Nat
deriving DecidableEq, Repr

/-- Concrete pids for the single run being traced. -/
def subshellPid : Nat := 1

/-- Pid of the uvicorn backend server process. -/
def backendServerPid : Nat := 2

/-- Pid of the `npm start` frontend server process. -/
def frontendPid : Nat := 3

/-- The state before any supervision line runs. -/
def initState : OrchState :=
  { procs := [], lastBgPid := none, backendPidVar := none,
    frontendPidVar := none, trapCmd := [] }

/-- `( $BACKEND_CMD & ) &` (part_002 line 29, inside `start_backend`): the
main shell backgrounds a subshell; the subshell backgrounds the uvicorn
server as its own child and exits at once.  Only the subshell is a
background child of the main shell, so `$!` becomes the subshell's pid; the
subshell is already gone when the main script proceeds, while the server
keeps running (reparented). -/
def doubleBackgroundBackend (st : OrchState) : OrchState :=
  { st with
    procs := st.procs ++
      [⟨subshellPid, .backendSubshell, false⟩, ⟨backendServerPid, .backendServer, true⟩],
    lastBgPid := some subshellPid }

/-- `BACKEND_PID=$!` (part_002 line 32). -/
def setBackendPidVar (st : OrchState) : OrchState :=
  { st with backendPidVar := st.lastBgPid }

/-- `trap "kill $BACKEND_PID" EXIT` (part_002 line 35). -/
def trapBackendOnly (st : OrchState) : OrchState :=
  { st with trapCmd := st.backendPidVar.toList }

/-- `npm start -- -p "$FRONTEND_PORT" &` (part_002 line 86). -/
def backgroundFrontend (st : OrchState) : OrchState :=
  { st with
    procs := st.procs ++ [⟨frontendPid, .frontendServer, true⟩],
    lastBgPid := some frontendPid }

/-- `FRONTEND_PID=$!` (part_002 line 89). -/
def setFrontendPidVar (st : OrchState) : OrchState :=
  { st with frontendPidVar := st.lastBgPid }

/-- `trap "kill $BACKEND_PID $FRONTEND_PID" EXIT` (part_002 line 92):
replaces the previously installed EXIT trap. -/
def trapBoth (st : OrchState) : OrchState :=
  { st with trapCmd := st.backendPidVar.toList ++ st.frontendPidVar.toList }

/-- `kill <pid>` delivers SIGTERM to exactly that pid: it does not signal
the target's (former) children, and on a pid whose process has already
exited it merely reports an error. -/
def killPid (procs : List Proc) (pid : Nat) : List Proc :=
  procs.map (fun p => if p.pid = pid then { p with alive := false } else p)

/-- Running the installed EXIT trap, which bash does on every exit path of
the script — normal completion, a `set -e` error exit, and termination by
SIGINT received at the final `wait`. -/
def runExitTrap (st : OrchState) : OrchState :=
  { st with procs := st.trapCmd.foldl killPid st.procs }

/-- The script state once both servers have been spawned and the final trap
installed (part_002 lines 29-92 in order). -/
def runappAfterSpawns : OrchState :=
  trapBoth (setFrontendPidVar (backgroundFrontend
    (trapBackendOnly (setBackendPidVar (doubleBackgroundBackend initState)))))

/-- The process table after the orchestrator exits from that state. -/
def runappAtExit : OrchState :=
  runExitTrap runappAfterSpawns

/-- Liveness of the (unique) process of a given kind in a state. -/
def aliveOf (st : OrchState) (k : ProcKind) : Option Bool :=
  (st.procs.find? (fun p => p.kind == k)).map Proc.alive

end Runapp

/-! ## Word/PDF → Markdown page: the `sanitizeHtmlTags` rewrite
(`src/frontend/app/word-to-md/page.tsx` lines 77-84)

The page rewrites the server's markdown with two global, case-insensitive
regex replacements before storing it:
opening tags matching the pattern `<` `\s*` `information` `(\b[^>]*)?` `>`
become `<div class="information">`, and closing tags matching
`<` `\s*` `/` `\s*` `information` `\s*` `>` become `</div>`.
The regexes are embedded below as character-list scanners (ASCII whitespace
and word characters, which is what the page's documents contain); a global
`replace` rewrites the leftmost match, resumes after it, and never rescans
the replacement text. -/

namespace WordToMd

/-- JS regex `\s` on the ASCII range: space, tab, newline, carriage return,
vertical tab, form feed. -/
def isJsWs (c : Char) : Bool :=
  c = ' ' || c = '\t' || c = '\n' || c = '\r' || c = '\x0b' || c = '\x0c'

/-- JS regex `\w` on the ASCII range: letters, digits, underscore. -/
def isJsWordChar (c : Char) : Bool :=
  c.isAlpha || c.isDigit || c = '_'

/-- `\s*`: greedy whitespace skip. -/
def skipWs : List Char → List Char
  | [] => []
  | c :: cs => if isJsWs c then skipWs cs else c :: cs

/-- The literal `information` of both patterns. -/
def infoChars : List Char :=
  ['i', 'n', 'f', 'o', 'r', 'm', 'a', 't', 'i', 'o', 'n']

/-- Case-insensitive literal match: on success returns the remainder. -/
def matchCI : List Char → List Char → Option (List Char)
  | [], s => some s
  | _ :: _, [] => none
  | l :: ls, c :: cs => if c.toLower = l then matchCI ls cs else none

/-- `[^>]*>`: consume up to and including the next `>`, if any. -/
def scanToGt : List Char → Option (List Char)
  | [] => none
  | c :: cs => if c = '>' then some cs else scanToGt cs

/-- The `(\b[^>]*)?>` tail of the opening pattern, applied right after the
literal: an immediate `>` closes the tag; a word character defeats the `\b`
(and the group-absent alternative needs `>`), so the match fails; any other
character satisfies `\b` and `[^>]*` runs to the next `>`. -/
def openAfterLit : List Char → Option (List Char)
  | [] => none
  | a :: rest =>
    if a = '>' then some rest
    else if isJsWordChar a then none
    else scanToGt (a :: rest)

/-- The opening pattern after its initial `<`: `\s*` `information`
(case-insensitive) then `openAfterLit`. -/
def openBody (s : List Char) : Option (List Char) :=
  match matchCI infoChars (skipWs s) with
  | none => none
  | some after => openAfterLit after

/-- A match of `<\s*information(\b[^>]*)?>` at the head of the input,
returning the remainder after the match. -/
def tryOpen : List Char → Option (List Char)
  | [] => none
  | c :: rest => if c = '<' then openBody rest else none

/-- The `\s*>` tail of the closing pattern, applied right after the
literal. -/
def closeAfterLit (after : List Char) : Option (List Char) :=
  match skipWs after with
  | [] => none
  | c3 :: r3 => if c3 = '>' then some r3 else none

/-- The `\s*information\s*>` part of the closing pattern, applied right
after the `/`. -/
def closeAfterSlash (r2 : List Char) : Option (List Char) :=
  match matchCI infoChars (skipWs r2) with
  | none => none
  | some after => closeAfterLit after

/-- The closing pattern after its initial `<`:
`\s*` `/` `\s*` `information` (case-insensitive) `\s*` `>`. -/
def closeBody (s : List Char) : Option (List Char) :=
  match skipWs s with
  | [] => none
  | c2 :: r2 => if c2 = '/' then closeAfterSlash r2 else none

/-- A match of `<\s*\/\s*information\s*>` at the head of the input,
returning the remainder after the match. -/
def tryClose : List Char → Option (List Char)
  | [] => none
  | c :: rest => if c = '<' then closeBody rest else none

/-- The replacement text of the opening rewrite. -/
def openRepl : List Char := "<div class=\"information\">".toList

/-- The replacement text of the closing rewrite. -/
def closeRepl : List Char := "</div>".toList

/-- Fuelled global replace of the opening pattern: leftmost match first,
resuming after the match, never rescanning the replacement.  The fuel only
bounds recursion depth; `replaceOpen` supplies enough for the whole input. -/
def replaceOpenFuel : Nat → List Char → List Char
  | 0, s => s
  | fuel + 1, s =>
    match s with
    | [] => []
    | c :: cs =>
      match tryOpen (c :: cs) with
      | some rest => openRepl ++ replaceOpenFuel fuel rest
      | none => c :: replaceOpenFuel fuel cs

/-- `md.replace(open pattern, '<div class="information">')` with the `g`
flag (page.tsx line 80). -/
def replaceOpen (s : List Char) : List Char :=
  replaceOpenFuel s.length s

/-- Fuelled global replace of the closing pattern. -/
def replaceCloseFuel : Nat → List Char → List Char
  | 0, s => s
  | fuel + 1, s =>
    match s with
    | [] => []
    | c :: cs =>
      match tryClose (c :: cs) with
      | some rest => closeRepl ++ replaceCloseFuel fuel rest
      | none => c :: replaceCloseFuel fuel cs

/-- `.replace(close pattern, '</div>')` with the `g` flag (page.tsx
line 81). -/
def replaceClose (s : List Char) : List Char :=
  replaceCloseFuel s.length s

/-- `sanitizeHtmlTags` (page.tsx lines 77-82): the empty (falsy) string is
returned as is; otherwise the opening rewrite runs over the whole string and
the closing rewrite runs over its result. -/
def sanitizeHtmlTags (md : String) : String :=
  if md = "" then md
  else String.mk (replaceClose (replaceOpen md.toList))

/-- An opening-pattern match starts at some position of the text. -/
def hasOpenTag : List Char → Bool
  | [] => false
  | c :: cs => (tryOpen (c :: cs)).isSome || hasOpenTag cs

/-- A closing-pattern match starts at some position of the text. -/
def hasCloseTag : List Char → Bool
  | [] => false
  | c :: cs => (tryClose (c :: cs)).isSome || hasCloseTag cs

/-- The markdown contains an `<information ...>` opening tag or an
`</information>` closing tag (as matched by the page's regexes). -/
def containsInfoTag (md : String) : Bool :=
  hasOpenTag md.toList || hasCloseTag md.toList

/-- What the page stores: `setMarkdown(sanitizeHtmlTags(data.markdown))`
(page.tsx line 84); the preview renders this state. -/
def storedMarkdown (serverMarkdown : String) : String :=
  sanitizeHtmlTags serverMarkdown

/-- What the download button writes to the `.md` blob (page.tsx lines
283-293): exactly the stored markdown state. -/
def downloadedMd (serverMarkdown : String) : String :=
  storedMarkdown serverMarkdown

/-- A tail at which scanning may stop uniformly: empty, or starting with
`<` (the one character every pattern position rejects and every rewrite
boundary starts with). -/
def ltBoundary (t : List Char) : Prop :=
  t = [] ∨ ∃ u, t = '<' :: u

end WordToMd

end Mdutility

namespace Mdutility

/-! ## Claim theorems (first batch) -/

/-- C2: for every file submitted to the Word/PDF-to-Markdown conversion
client, the network request is issued exactly when the file's extension is in
`{.docx, .pdf}` and its size is at most 3 MiB; a file failing the extension
check is rejected locally with the unsupported-type message, and a file
passing it but exceeding the size bound is rejected locally with the
too-large message — in both cases no network call happens. -/
theorem c2_upload_gate (f : WordToMd.UploadFile) (rest : List WordToMd.UploadFile) :
    (WordToMd.isNetworkCall (WordToMd.handleFiles (f :: rest)) = true ↔
      WordToMd.extOf f.name ∈ WordToMd.acceptedExts ∧
        f.size ≤ WordToMd.maxUploadBytes)
    ∧ (WordToMd.extOf f.name ∉ WordToMd.acceptedExts →
        WordToMd.handleFiles (f :: rest) =
          .rejectedType ("Unsupported file type: " ++ WordToMd.extOf f.name ++
            ". Supported: .docx, .pdf"))
    ∧ (WordToMd.extOf f.name ∈ WordToMd.acceptedExts →
        WordToMd.maxUploadBytes < f.size →
        WordToMd.handleFiles (f :: rest) =
          .rejectedSize "File too large. Maximum allowed size is 3 MB.") := by
  refine ⟨?_, ?_, ?_⟩
  · by_cases hm : WordToMd.extOf f.name ∈ WordToMd.acceptedExts
    · by_cases hs : WordToMd.maxUploadBytes < f.size
      · simp [WordToMd.handleFiles, WordToMd.isNetworkCall, hm, hs, Nat.not_le.mpr hs]
      · simp [WordToMd.handleFiles, WordToMd.isNetworkCall, hm, hs, Nat.le_of_not_lt hs]
    · simp [WordToMd.handleFiles, WordToMd.isNetworkCall, hm]
  · intro hm
    simp [WordToMd.handleFiles, hm]
  · intro hm hs
    simp [WordToMd.handleFiles, hm, hs]

/-- Witness for C2: a 3 MiB + 1 byte `.docx` upload is rejected locally with
the size message, via `c2_upload_gate` at that concrete file. -/
theorem c2_upload_gate_witness :
    WordToMd.handleFiles [⟨"big.docx", 3 * 1024 * 1024 + 1⟩] =
      .rejectedSize "File too large. Maximum allowed size is 3 MB." :=
  (c2_upload_gate ⟨"big.docx", 3 * 1024 * 1024 + 1⟩ []).2.2 (by decide) (by decide)

/-- C8: `ensure_isolated_environment` is idempotent — running it twice equals
running it once, and two successive runs perform at most one creation side
effect; when the venv directory already exists the call is a no-op (so it
never deletes or recreates the directory). -/
theorem c8_ensure_isolated_environment (fs : Bootstrap.VenvFS) :
    Bootstrap.ensure_isolated_environment (Bootstrap.ensure_isolated_environment fs) =
      Bootstrap.ensure_isolated_environment fs
    ∧ (Bootstrap.ensure_isolated_environment
        (Bootstrap.ensure_isolated_environment fs)).venvCreations ≤ fs.venvCreations + 1
    ∧ (fs.venvExists = true → Bootstrap.ensure_isolated_environment fs = fs)
    ∧ (Bootstrap.ensure_isolated_environment fs).venvExists = true := by
  refine ⟨?_, ?_, ?_, ?_⟩ <;>
    · cases h : fs.venvExists <;>
        simp [Bootstrap.ensure_isolated_environment, h]

/-- Witness for C8: at a filesystem whose venv already exists the call is the
identity, via `c8_ensure_isolated_environment`. -/
theorem c8_ensure_isolated_environment_witness :
    Bootstrap.ensure_isolated_environment ⟨true, 5⟩ = (⟨true, 5⟩ : Bootstrap.VenvFS) :=
  (c8_ensure_isolated_environment ⟨true, 5⟩).2.2.1 rfl

/-- Helper for C7: the PowerShell candidate loop returns the first candidate
that passes its effective availability test, spelled via `psDisplay`. -/
theorem psResolveGo_eq_find (avail : String → Bool) (py3Probe : Bool) :
    ∀ l : List String,
      Bootstrap.psResolveGo avail py3Probe l =
        (l.find? (Bootstrap.psAvailable avail py3Probe)).map Bootstrap.psDisplay := by
  intro l
  induction l with
  | nil => rfl
  | cons c rest ih =>
    by_cases hp : c = "py"
    · subst hp
      by_cases ha : avail "py" = true
      · cases py3Probe
        · simp [Bootstrap.psResolveGo, Bootstrap.psAvailable, ha, List.find?, ih]
        · simp [Bootstrap.psResolveGo, Bootstrap.psAvailable, Bootstrap.psDisplay,
            ha, List.find?]
      · simp only [Bool.not_eq_true] at ha
        simp [Bootstrap.psResolveGo, Bootstrap.psAvailable, ha, List.find?, ih]
    · by_cases ha : avail c = true
      · simp [Bootstrap.psResolveGo, Bootstrap.psAvailable, Bootstrap.psDisplay,
          ha, hp, List.find?]
      · simp only [Bool.not_eq_true] at ha
        simp [Bootstrap.psResolveGo, Bootstrap.psAvailable, ha, List.find?, ih]

/-- C7: both `Get-PythonCmd` (candidates `python`, `python3`, `py`) and the
bash detection (candidates `python3`, `python`) return the first available
candidate of their priority list — hence never a later candidate when an
earlier one is available — and when no candidate is available the enclosing
step exits fatally with code 1. -/
theorem c7_resolve_runtime (avail : String → Bool) (py3Probe : Bool) :
    Bootstrap.getPythonCmd avail py3Probe =
      (Bootstrap.psRuntimeCandidates.find?
        (Bootstrap.psAvailable avail py3Probe)).map Bootstrap.psDisplay
    ∧ Bootstrap.shPythonCmd avail = Bootstrap.shRuntimeCandidates.find? avail
    ∧ ((∀ c ∈ Bootstrap.psRuntimeCandidates,
          Bootstrap.psAvailable avail py3Probe c = false) →
        Bootstrap.psResolveRuntime avail py3Probe = .fatal 1)
    ∧ ((∀ c ∈ Bootstrap.shRuntimeCandidates, avail c = false) →
        Bootstrap.shResolveRuntime avail = .fatal 1) := by
  refine ⟨psResolveGo_eq_find avail py3Probe _, ?_, ?_, ?_⟩
  · by_cases h3 : avail "python3" = true
    · simp [Bootstrap.shPythonCmd, Bootstrap.shRuntimeCandidates, h3, List.find?]
    · simp only [Bool.not_eq_true] at h3
      by_cases h2 : avail "python" = true
      · simp [Bootstrap.shPythonCmd, Bootstrap.shRuntimeCandidates, h3, h2, List.find?]
      · simp only [Bool.not_eq_true] at h2
        simp [Bootstrap.shPythonCmd, Bootstrap.shRuntimeCandidates, h3, h2, List.find?]
  · intro hall
    have h := psResolveGo_eq_find avail py3Probe Bootstrap.psRuntimeCandidates
    rw [List.find?_eq_none.mpr (fun c hc => by simp [hall c hc])] at h
    simp [Bootstrap.psResolveRuntime, Bootstrap.getPythonCmd] at h ⊢
    rw [h]
  · intro hall
    have h1 := hall "python3" (by simp [Bootstrap.shRuntimeCandidates])
    have h2 := hall "python" (by simp [Bootstrap.shRuntimeCandidates])
    simp [Bootstrap.shResolveRuntime, Bootstrap.shPythonCmd, h1, h2]

/-- Witness for C7: with no interpreter available both scripts exit fatally
with code 1, via `c7_resolve_runtime`. -/
theorem c7_resolve_runtime_witness :
    Bootstrap.psResolveRuntime (fun _ => false) true = .fatal 1
    ∧ Bootstrap.shResolveRuntime (fun _ => false) = .fatal 1 :=
  ⟨(c7_resolve_runtime (fun _ => false) true).2.2.1 (by decide),
   (c7_resolve_runtime (fun _ => false) true).2.2.2 (by decide)⟩

/-- C10: a drop on the Markdown-to-Word page appends to the selected-file
list exactly the dropped files whose names end case-insensitively in `.md`,
never touches the error banner, and a drop containing no such file leaves the
whole state unchanged. -/
theorem c10_onDrop (st : MdToWord.MdPageState) (dropped : List MdToWord.DropFile) :
    (MdToWord.onDrop st dropped).mdFiles =
      st.mdFiles ++ dropped.filter (fun f => MdToWord.endsWithMd f.name)
    ∧ (MdToWord.onDrop st dropped).error = st.error
    ∧ ((∀ f ∈ dropped, MdToWord.endsWithMd f.name = false) →
        MdToWord.onDrop st dropped = st) := by
  refine ⟨?_, ?_, ?_⟩
  · cases hd : dropped with
    | nil => simp [MdToWord.onDrop]
    | cons a l =>
      by_cases hk : 0 < ((a :: l).filter (fun f => MdToWord.endsWithMd f.name)).length
      · simp [MdToWord.onDrop, hk]
      · have : (a :: l).filter (fun f => MdToWord.endsWithMd f.name) = [] := by
          cases hfe : (a :: l).filter (fun f => MdToWord.endsWithMd f.name) with
          | nil => rfl
          | cons b m => rw [hfe] at hk; simp at hk
        simp [MdToWord.onDrop, hk, this]
  · cases hd : dropped with
    | nil => simp [MdToWord.onDrop]
    | cons a l =>
      by_cases hk : 0 < ((a :: l).filter (fun f => MdToWord.endsWithMd f.name)).length
      · simp [MdToWord.onDrop, hk]
      · simp [MdToWord.onDrop, hk]
  · intro hnone
    have hfil : dropped.filter (fun f => MdToWord.endsWithMd f.name) = [] :=
      List.filter_eq_nil_iff.mpr (fun f hf => by simp [hnone f hf])
    cases hd : dropped with
    | nil => simp [MdToWord.onDrop]
    | cons a l =>
      rw [hd] at hfil
      simp [MdToWord.onDrop, hfil]

/-- Witness for C10: a drop consisting of a single `.txt` file leaves the
page state unchanged, via `c10_onDrop`. -/
theorem c10_onDrop_witness :
    MdToWord.onDrop ⟨[⟨"notes.md"⟩], none⟩ [⟨"readme.txt"⟩] =
      (⟨[⟨"notes.md"⟩], none⟩ : MdToWord.MdPageState) :=
  (c10_onDrop ⟨[⟨"notes.md"⟩], none⟩ [⟨"readme.txt"⟩]).2.2 (by decide)

/-! ## Claim theorems (second batch) -/

/-- Helper for C6: from elapsed second `s`, if the endpoint is healthy at
some second `t` in `[s, TIMEOUT)`, the loop exits successfully no later
than `t`. -/
theorem awaitHealthFrom_success (healthy : Nat → Bool) :
    ∀ fuel s t, Bootstrap.healthTimeoutSecs + 1 - s ≤ fuel → s ≤ t →
      t < Bootstrap.healthTimeoutSecs → healthy t = true →
      (Bootstrap.awaitHealthFrom healthy s).1 = true ∧
        (Bootstrap.awaitHealthFrom healthy s).2 ≤ t := by
  intro fuel
  induction fuel with
  | zero => intro s t hfuel hst ht _; omega
  | succ n ih =>
    intro s t hfuel hst ht hh
    rw [Bootstrap.awaitHealthFrom]
    by_cases hs : healthy s = true
    · simp [hs, hst]
    · have hne : s ≠ t := fun he => hs (he ▸ hh)
      have hlt : s < t := lt_of_le_of_ne hst hne
      have hnot : ¬ Bootstrap.healthTimeoutSecs ≤ s := by omega
      simp only [hs, if_false, hnot]
      exact ih (s + 1) t (by omega) (by omega) ht hh

/-- Helper for C6: if the endpoint never reports healthy up to the timeout,
the loop exits with failure exactly when `TIMEOUT` seconds have elapsed. -/
theorem awaitHealthFrom_timeout (healthy : Nat → Bool)
    (hall : ∀ t, t ≤ Bootstrap.healthTimeoutSecs → healthy t = false) :
    ∀ fuel s, Bootstrap.healthTimeoutSecs + 1 - s ≤ fuel →
      s ≤ Bootstrap.healthTimeoutSecs →
      Bootstrap.awaitHealthFrom healthy s = (false, Bootstrap.healthTimeoutSecs) := by
  intro fuel
  induction fuel with
  | zero => intro s hfuel hs; omega
  | succ n ih =>
    intro s hfuel hs
    rw [Bootstrap.awaitHealthFrom]
    have hh : healthy s = false := hall s hs
    by_cases hend : Bootstrap.healthTimeoutSecs ≤ s
    · have hse : s = Bootstrap.healthTimeoutSecs := le_antisymm hs hend
      subst hse
      simp [hh]
    · simp only [hh, if_false, hend]
      exact ih (s + 1) (by omega) (by omega)

/-- C6: the health wait polls the fixed endpoint once per second; if the
endpoint reports success at some second before the 60-second timeout the
loop returns success before the timeout elapses; if it never reports
success the loop ends in failure exactly at the timeout (one poll interval
of T); and the step that follows never consults the loop's result, so a
timeout is non-fatal and the sequence continues identically. -/
theorem c6_await_health (healthy : Nat → Bool) :
    (∀ t, t < Bootstrap.healthTimeoutSecs → healthy t = true →
      (Bootstrap.await_health healthy).1 = true ∧
        (Bootstrap.await_health healthy).2 < Bootstrap.healthTimeoutSecs)
    ∧ ((∀ t, t ≤ Bootstrap.healthTimeoutSecs → healthy t = false) →
        Bootstrap.await_health healthy = (false, Bootstrap.healthTimeoutSecs))
    ∧ (∀ d p r r', Bootstrap.shStartFrontendAfterHealth d p r =
        Bootstrap.shStartFrontendAfterHealth d p r') := by
  refine ⟨?_, ?_, fun d p r r' => rfl⟩
  · intro t ht hh
    have h := awaitHealthFrom_success healthy (Bootstrap.healthTimeoutSecs + 1) 0 t
      (by omega) (Nat.zero_le t) ht hh
    exact ⟨h.1, lt_of_le_of_lt h.2 ht⟩
  · intro hall
    exact awaitHealthFrom_timeout healthy hall (Bootstrap.healthTimeoutSecs + 1) 0
      (by omega) (Nat.zero_le _)

/-- Witness for C6: an endpoint healthy from second 2 on makes the loop
succeed before the timeout, and one that never responds makes it fail at
exactly 60 seconds, via `c6_await_health` at those concrete endpoints. -/
theorem c6_await_health_witness :
    ((Bootstrap.await_health (fun t => decide (2 ≤ t))).1 = true ∧
      (Bootstrap.await_health (fun t => decide (2 ≤ t))).2 < Bootstrap.healthTimeoutSecs)
    ∧ Bootstrap.await_health (fun _ => false) = (false, Bootstrap.healthTimeoutSecs) :=
  ⟨(c6_await_health (fun t => decide (2 ≤ t))).1 2 (by decide) (by decide),
   (c6_await_health (fun _ => false)).2.1 (fun t _ => rfl)⟩

/-- Helper for C3: the zip-download control is shown for a response produced
with the archive rule exactly when more than one file was submitted. -/
theorem downloadZipShown_convert (convertOne : MdToWord.MdSource → MdToWord.ConvertedFile)
    (mkArchive : List MdToWord.ConvertedFile → String)
    (g : MdToWord.MdSource) (gs : List MdToWord.MdSource) :
    MdToWord.downloadZipShown
      ⟨(g :: gs).map convertOne,
        if 1 < ((g :: gs).map convertOne).length
        then some (mkArchive ((g :: gs).map convertOne)) else none⟩ = true
      ↔ 1 < (g :: gs).length := by
  by_cases h : 1 < (g :: gs).length
  · have hml : 1 < ((g :: gs).map convertOne).length := by simpa using h
    simp [MdToWord.downloadZipShown, hml, h]
  · have hml : ¬ 1 < ((g :: gs).map convertOne).length := by simpa using h
    simp [MdToWord.downloadZipShown, hml, h]

/-- C3: every defined response of `convert_markdown_to_word` has exactly one
`{filename, payload}` entry per submitted Markdown file; with more than one
entry the archive payload is non-null, with exactly one entry it is null;
and the client's zip-download control is shown precisely for the
multi-file case. -/
theorem c3_convert_response_shape (convertOne : MdToWord.MdSource → MdToWord.ConvertedFile)
    (mkArchive : List MdToWord.ConvertedFile → String)
    (files : List MdToWord.MdSource) (theme : Option MdToWord.MdSource)
    (resp : MdToWord.ConvertResponse)
    (h : MdToWord.convert_markdown_to_word convertOne mkArchive files theme = some resp) :
    resp.files.length = files.length
    ∧ (1 < resp.files.length → resp.zip ≠ none)
    ∧ (resp.files.length = 1 → resp.zip = none)
    ∧ (MdToWord.downloadZipShown resp = true ↔ 1 < files.length) := by
  cases files with
  | nil => simp [MdToWord.convert_markdown_to_word] at h
  | cons g gs =>
    simp only [MdToWord.convert_markdown_to_word, Option.some.injEq] at h
    subst h
    refine ⟨by simp, ?_, ?_, downloadZipShown_convert convertOne mkArchive g gs⟩
    · intro h1
      have hml : 1 < ((g :: gs).map convertOne).length := by simpa using h1
      show (if 1 < ((g :: gs).map convertOne).length
          then some (mkArchive ((g :: gs).map convertOne)) else none) ≠ none
      rw [if_pos hml]
      simp
    · intro h1
      have h1' : ((g :: gs).map convertOne).length = 1 := by simpa using h1
      have hml : ¬ 1 < ((g :: gs).map convertOne).length := by omega
      show (if 1 < ((g :: gs).map convertOne).length
          then some (mkArchive ((g :: gs).map convertOne)) else none) = none
      rw [if_neg hml]

/-- Witness for C3: two concrete Markdown files yield two entries and a
non-null archive, via `c3_convert_response_shape` at that input. -/
theorem c3_convert_response_shape_witness :
    ((⟨[⟨"a.md", "x"⟩, ⟨"b.md", "y"⟩], some "PK"⟩ :
        MdToWord.ConvertResponse).files.length =
      ([⟨"a.md", "x"⟩, ⟨"b.md", "y"⟩] : List MdToWord.MdSource).length)
    ∧ (1 < (⟨[⟨"a.md", "x"⟩, ⟨"b.md", "y"⟩], some "PK"⟩ :
        MdToWord.ConvertResponse).files.length →
      (⟨[⟨"a.md", "x"⟩, ⟨"b.md", "y"⟩], some "PK"⟩ :
        MdToWord.ConvertResponse).zip ≠ none)
    ∧ ((⟨[⟨"a.md", "x"⟩, ⟨"b.md", "y"⟩], some "PK"⟩ :
        MdToWord.ConvertResponse).files.length = 1 →
      (⟨[⟨"a.md", "x"⟩, ⟨"b.md", "y"⟩], some "PK"⟩ :
        MdToWord.ConvertResponse).zip = none)
    ∧ (MdToWord.downloadZipShown
        (⟨[⟨"a.md", "x"⟩, ⟨"b.md", "y"⟩], some "PK"⟩ : MdToWord.ConvertResponse) = true
        ↔ 1 < ([⟨"a.md", "x"⟩, ⟨"b.md", "y"⟩] : List MdToWord.MdSource).length) :=
  c3_convert_response_shape
    (fun f => ⟨f.name, f.content⟩) (fun _ => "PK")
    [⟨"a.md", "x"⟩, ⟨"b.md", "y"⟩] none _ (by decide)

/-- C4 counterexample: in the runapp bash script the install step is not
guarded on the manifest, so a run with `requirements.txt` absent aborts the
bootstrap (exit 1 under `set -e`) instead of skipping with a warning —
refuting the claim as stated over every run. -/
theorem c4_runapp_absent_manifest_aborts :
    Bootstrap.runapp_install_dependencies false true = .aborted 1
    ∧ Bootstrap.stepAborts (Bootstrap.runapp_install_dependencies false true) = true
    ∧ Bootstrap.runapp_install_dependencies false true ≠ .skippedWithWarning := by
  decide

/-- C4 (amended): in start-application.sh and Start_application.ps1 the
install step is guarded on the manifest: absence of `requirements.txt`
skips the install with a warning and the bootstrap continues (the step never
aborts); the runapp bash script, by contrast, installs unconditionally and
absence of the manifest aborts it. -/
theorem c4_guarded_install_skips (pipOk : Bool) :
    Bootstrap.sh_install_dependencies false pipOk = .skippedWithWarning
    ∧ Bootstrap.ps_install_dependencies false = .skippedWithWarning
    ∧ Bootstrap.stepAborts (Bootstrap.sh_install_dependencies false pipOk) = false
    ∧ Bootstrap.stepAborts (Bootstrap.ps_install_dependencies false) = false
    ∧ Bootstrap.runapp_install_dependencies false pipOk = .aborted 1 := by
  cases pipOk <;> decide

/-- C5 counterexample: in the older PowerShell script (part_000) a run with
the frontend folder present and npm unavailable hits the `exit 1` branch of
the npm step, so the orchestrator exits with an error and the backend is
never started — refuting the claim that a missing package manager is always
soft. -/
theorem c5_ps1v1_missing_npm_fatal :
    Bootstrap.ps1v1_frontend_setup true false = .fatalNoNpm 1
    ∧ Bootstrap.ps1v1_backendStarted true false = false := by
  decide

/-- C5 (amended): in start-application.sh and in the Start_application.ps1
variant with `Get-PackageManager`, a run in which none of npm/pnpm/yarn
resolves is a soft failure — the frontend steps are skipped with a warning,
the backend is still started, and there is no error exit; in the older
PowerShell script (part_000) a missing npm is instead fatal before the
backend starts. -/
theorem c5_soft_package_manager (avail : String → Bool) (dirExists : Bool)
    (h : ∀ m ∈ ["npm", "pnpm", "yarn"], avail m = false) :
    Bootstrap.sh_resolve_package_manager avail = none
    ∧ Bootstrap.sh_run_frontendGate avail dirExists =
        { frontendInstalled := false, backendStarted := true, exitedWithError := false }
    ∧ Bootstrap.ps2_run_frontendGate avail dirExists =
        { frontendInstalled := false, backendStarted := true, exitedWithError := false }
    ∧ Bootstrap.ps1v1_frontend_setup true false = .fatalNoNpm 1 := by
  have h1 := h "npm" (by simp)
  have h2 := h "pnpm" (by simp)
  have h3 := h "yarn" (by simp)
  refine ⟨?_, ?_, ?_, by decide⟩
  · simp [Bootstrap.sh_resolve_package_manager, h1, h2, h3]
  · simp [Bootstrap.sh_run_frontendGate, Bootstrap.sh_resolve_package_manager, h1, h2, h3]
  · simp [Bootstrap.ps2_run_frontendGate, Bootstrap.ps_get_package_manager, h1, h2, h3]

/-- Witness for C5 (amended): with no package manager on the PATH at all,
the bash script skips the frontend and still starts the backend, via
`c5_soft_package_manager` at that concrete availability. -/
theorem c5_soft_package_manager_witness :
    Bootstrap.sh_run_frontendGate (fun _ => false) true =
      { frontendInstalled := false, backendStarted := true, exitedWithError := false } :=
  (c5_soft_package_manager (fun _ => false) true (by decide)).2.1

/-- C1: evaluating the runapp script's teardown at exit.  The double
background `( $BACKEND_CMD & ) &` makes `BACKEND_PID` the pid of an
intermediate subshell that has already exited, so the EXIT trap
`kill $BACKEND_PID $FRONTEND_PID` terminates the frontend but never signals
the uvicorn backend server, which survives the orchestrator's exit —
contrary to the claim (and to the script's own comments) that teardown
terminates both spawned processes on every exit path. -/
theorem c1_trap_misses_backend_server :
    Runapp.aliveOf Runapp.runappAtExit .backendServer = some true
    ∧ Runapp.aliveOf Runapp.runappAtExit .frontendServer = some false
    ∧ Runapp.aliveOf Runapp.runappAtExit .backendSubshell = some false
    ∧ Runapp.runappAfterSpawns.trapCmd = [Runapp.subshellPid, Runapp.frontendPid]
    ∧ Runapp.backendServerPid ∉ Runapp.runappAfterSpawns.trapCmd := by
  decide

/-! ## Development for C9: the sanitizer rewrites

First, size bounds on the scanners (each successful match consumes at least
one character), which justify that the fuel supplied by `replaceOpen` and
`replaceClose` is never exhausted. -/

namespace WordToMd

theorem skipWs_length : ∀ s : List Char, (skipWs s).length ≤ s.length := by
  intro s
  induction s with
  | nil => simp [skipWs]
  | cons c cs ih =>
    by_cases h : isJsWs c = true
    · simp only [skipWs, h, if_true]
      exact Nat.le_succ_of_le ih
    · simp only [Bool.not_eq_true] at h
      simp [skipWs, h]

theorem matchCI_length :
    ∀ (l : List Char) (s r : List Char), matchCI l s = some r → r.length ≤ s.length := by
  intro l
  induction l with
  | nil =>
    intro s r h
    simp only [matchCI, Option.some.injEq] at h
    exact h ▸ le_refl _
  | cons x xs ih =>
    intro s r h
    cases s with
    | nil => simp [matchCI] at h
    | cons c cs =>
      simp only [matchCI] at h
      by_cases hc : c.toLower = x
      · rw [if_pos hc] at h
        exact Nat.le_succ_of_le (ih cs r h)
      · rw [if_neg hc] at h
        exact absurd h (by simp)

theorem scanToGt_length :
    ∀ (s r : List Char), scanToGt s = some r → r.length < s.length := by
  intro s
  induction s with
  | nil => intro r h; simp [scanToGt] at h
  | cons c cs ih =>
    intro r h
    simp only [scanToGt] at h
    by_cases hc : c = '>'
    · rw [if_pos hc] at h
      simp only [Option.some.injEq] at h
      simp [h]
    · rw [if_neg hc] at h
      exact Nat.lt_succ_of_lt (ih r h)

theorem openAfterLit_length :
    ∀ (s r : List Char), openAfterLit s = some r → r.length < s.length := by
  intro s r h
  cases s with
  | nil => simp [openAfterLit] at h
  | cons a rest =>
    simp only [openAfterLit] at h
    by_cases ha : a = '>'
    · rw [if_pos ha] at h
      simp only [Option.some.injEq] at h
      simp [h]
    · rw [if_neg ha] at h
      by_cases hw : isJsWordChar a = true
      · rw [if_pos hw] at h
        exact absurd h (by simp)
      · rw [if_neg hw] at h
        exact scanToGt_length _ r h

theorem openBody_length :
    ∀ (s r : List Char), openBody s = some r → r.length < s.length + 1 := by
  intro s r h
  simp only [openBody] at h
  cases hm : matchCI infoChars (skipWs s) with
  | none => rw [hm] at h; exact absurd h (by simp)
  | some after =>
    rw [hm] at h
    have h1 := matchCI_length _ _ _ hm
    have h2 := skipWs_length s
    have h3 := openAfterLit_length _ _ h
    omega

theorem tryOpen_length :
    ∀ (s r : List Char), tryOpen s = some r → r.length < s.length := by
  intro s r h
  cases s with
  | nil => simp [tryOpen] at h
  | cons c rest =>
    simp only [tryOpen] at h
    by_cases hc : c = '<'
    · rw [if_pos hc] at h
      have := openBody_length rest r h
      simpa using this
    · rw [if_neg hc] at h
      exact absurd h (by simp)

theorem closeAfterLit_length :
    ∀ (after r : List Char), closeAfterLit after = some r → r.length < after.length + 1 := by
  intro after r h
  simp only [closeAfterLit] at h
  cases ha : skipWs after with
  | nil => simp [ha] at h
  | cons c3 r3 =>
    simp only [ha] at h
    have h3 : r3.length + 1 ≤ after.length := by
      have := skipWs_length after
      rw [ha] at this
      simpa using this
    by_cases hc3 : c3 = '>'
    · rw [if_pos hc3] at h
      simp only [Option.some.injEq] at h
      subst h
      omega
    · rw [if_neg hc3] at h
      exact absurd h (by simp)

theorem closeAfterSlash_length :
    ∀ (r2 r : List Char), closeAfterSlash r2 = some r → r.length < r2.length + 1 := by
  intro r2 r h
  simp only [closeAfterSlash] at h
  cases hm : matchCI infoChars (skipWs r2) with
  | none => simp [hm] at h
  | some after =>
    simp only [hm] at h
    have h1 := matchCI_length _ _ _ hm
    have h2 := skipWs_length r2
    have h3 := closeAfterLit_length _ _ h
    omega

theorem closeBody_length :
    ∀ (s r : List Char), closeBody s = some r → r.length < s.length + 1 := by
  intro s r h
  simp only [closeBody] at h
  cases hs : skipWs s with
  | nil => simp [hs] at h
  | cons c2 r2 =>
    simp only [hs] at h
    have hlen : r2.length + 1 ≤ s.length := by
      have := skipWs_length s
      rw [hs] at this
      simpa using this
    by_cases hc2 : c2 = '/'
    · rw [if_pos hc2] at h
      have := closeAfterSlash_length _ _ h
      omega
    · rw [if_neg hc2] at h
      exact absurd h (by simp)

theorem tryClose_length :
    ∀ (s r : List Char), tryClose s = some r → r.length < s.length := by
  intro s r h
  cases s with
  | nil => simp [tryClose] at h
  | cons c rest =>
    simp only [tryClose] at h
    by_cases hc : c = '<'
    · rw [if_pos hc] at h
      have := closeBody_length rest r h
      simpa using this
    · rw [if_neg hc] at h
      exact absurd h (by simp)

/-! Fuel irrelevance: any fuel at least the input length computes the same
replacement, so the canonical `replaceOpen`/`replaceClose` satisfy the
expected one-step unfoldings. -/

theorem replaceOpenFuel_nil : ∀ fuel, replaceOpenFuel fuel [] = [] := by
  intro fuel
  cases fuel <;> rfl

theorem replaceCloseFuel_nil : ∀ fuel, replaceCloseFuel fuel [] = [] := by
  intro fuel
  cases fuel <;> rfl

theorem replaceOpenFuel_irrel :
    ∀ (fuel1 : Nat) (s : List Char) (fuel2 : Nat), s.length ≤ fuel1 → s.length ≤ fuel2 →
      replaceOpenFuel fuel1 s = replaceOpenFuel fuel2 s := by
  intro fuel1
  induction fuel1 with
  | zero =>
    intro s fuel2 h1 _
    have : s = [] := List.eq_nil_of_length_eq_zero (Nat.le_zero.mp h1)
    subst this
    rw [replaceOpenFuel_nil, replaceOpenFuel_nil]
  | succ n ih =>
    intro s fuel2 h1 h2
    cases s with
    | nil => rw [replaceOpenFuel_nil, replaceOpenFuel_nil]
    | cons c cs =>
      cases fuel2 with
      | zero => simp at h2
      | succ m =>
        cases htry : tryOpen (c :: cs) with
        | some rest =>
          have hr := tryOpen_length _ _ htry
          simp only [List.length_cons] at hr h1 h2
          simp only [replaceOpenFuel, htry]
          rw [ih rest m (by omega) (by omega)]
        | none =>
          simp only [List.length_cons] at h1 h2
          simp only [replaceOpenFuel, htry]
          rw [ih cs m (by omega) (by omega)]

theorem replaceCloseFuel_irrel :
    ∀ (fuel1 : Nat) (s : List Char) (fuel2 : Nat), s.length ≤ fuel1 → s.length ≤ fuel2 →
      replaceCloseFuel fuel1 s = replaceCloseFuel fuel2 s := by
  intro fuel1
  induction fuel1 with
  | zero =>
    intro s fuel2 h1 _
    have : s = [] := List.eq_nil_of_length_eq_zero (Nat.le_zero.mp h1)
    subst this
    rw [replaceCloseFuel_nil, replaceCloseFuel_nil]
  | succ n ih =>
    intro s fuel2 h1 h2
    cases s with
    | nil => rw [replaceCloseFuel_nil, replaceCloseFuel_nil]
    | cons c cs =>
      cases fuel2 with
      | zero => simp at h2
      | succ m =>
        cases htry : tryClose (c :: cs) with
        | some rest =>
          have hr := tryClose_length _ _ htry
          simp only [List.length_cons] at hr h1 h2
          simp only [replaceCloseFuel, htry]
          rw [ih rest m (by omega) (by omega)]
        | none =>
          simp only [List.length_cons] at h1 h2
          simp only [replaceCloseFuel, htry]
          rw [ih cs m (by omega) (by omega)]

theorem replaceOpen_nil : replaceOpen [] = [] := rfl

theorem replaceClose_nil : replaceClose [] = [] := rfl

theorem replaceOpen_cons_some {c : Char} {cs r : List Char}
    (h : tryOpen (c :: cs) = some r) :
    replaceOpen (c :: cs) = openRepl ++ replaceOpen r := by
  have hr := tryOpen_length _ _ h
  simp only [List.length_cons] at hr
  rw [replaceOpen, List.length_cons]
  simp only [replaceOpenFuel, h]
  rw [replaceOpenFuel_irrel cs.length r r.length (by omega) (le_refl _)]
  rfl

theorem replaceOpen_cons_none {c : Char} {cs : List Char}
    (h : tryOpen (c :: cs) = none) :
    replaceOpen (c :: cs) = c :: replaceOpen cs := by
  rw [replaceOpen, List.length_cons]
  simp only [replaceOpenFuel, h]
  rfl

theorem replaceClose_cons_some {c : Char} {cs r : List Char}
    (h : tryClose (c :: cs) = some r) :
    replaceClose (c :: cs) = closeRepl ++ replaceClose r := by
  have hr := tryClose_length _ _ h
  simp only [List.length_cons] at hr
  rw [replaceClose, List.length_cons]
  simp only [replaceCloseFuel, h]
  rw [replaceCloseFuel_irrel cs.length r r.length (by omega) (le_refl _)]
  rfl

theorem replaceClose_cons_none {c : Char} {cs : List Char}
    (h : tryClose (c :: cs) = none) :
    replaceClose (c :: cs) = c :: replaceClose cs := by
  rw [replaceClose, List.length_cons]
  simp only [replaceCloseFuel, h]
  rfl

/-! No-match inputs are fixed points of the rewrites. -/

theorem replaceOpen_of_no_tag :
    ∀ s : List Char, hasOpenTag s = false → replaceOpen s = s := by
  intro s
  induction s with
  | nil => intro _; rfl
  | cons c cs ih =>
    intro h
    simp only [hasOpenTag, Bool.or_eq_false_iff] at h
    obtain ⟨h1, h2⟩ := h
    have hn : tryOpen (c :: cs) = none := by
      cases htry : tryOpen (c :: cs)
      · rfl
      · rw [htry] at h1; simp at h1
    rw [replaceOpen_cons_none hn, ih h2]

theorem replaceClose_of_no_tag :
    ∀ s : List Char, hasCloseTag s = false → replaceClose s = s := by
  intro s
  induction s with
  | nil => intro _; rfl
  | cons c cs ih =>
    intro h
    simp only [hasCloseTag, Bool.or_eq_false_iff] at h
    obtain ⟨h1, h2⟩ := h
    have hn : tryClose (c :: cs) = none := by
      cases htry : tryClose (c :: cs)
      · rfl
      · rw [htry] at h1; simp at h1
    rw [replaceClose_cons_none hn, ih h2]

/-! Positions not holding `<` never start a match, so `<`-free prefixes pass
through both rewrites verbatim. -/

theorem tryOpen_not_lt {c : Char} (h : c ≠ '<') (cs : List Char) :
    tryOpen (c :: cs) = none := by
  simp [tryOpen, h]

theorem tryClose_not_lt {c : Char} (h : c ≠ '<') (cs : List Char) :
    tryClose (c :: cs) = none := by
  simp [tryClose, h]

theorem replaceOpen_append_nolt :
    ∀ (p : List Char), (∀ x ∈ p, x ≠ '<') →
      ∀ u, replaceOpen (p ++ u) = p ++ replaceOpen u := by
  intro p
  induction p with
  | nil => intro _ u; rfl
  | cons c p' ih =>
    intro h u
    have hc : c ≠ '<' := h c (by simp)
    rw [List.cons_append, replaceOpen_cons_none (tryOpen_not_lt hc _),
      ih (fun x hx => h x (by simp [hx])) u]
    rfl

theorem replaceClose_append_nolt :
    ∀ (p : List Char), (∀ x ∈ p, x ≠ '<') →
      ∀ u, replaceClose (p ++ u) = p ++ replaceClose u := by
  intro p
  induction p with
  | nil => intro _ u; rfl
  | cons c p' ih =>
    intro h u
    have hc : c ≠ '<' := h c (by simp)
    rw [List.cons_append, replaceClose_cons_none (tryClose_not_lt hc _),
      ih (fun x hx => h x (by simp [hx])) u]
    rfl

/-! Character classifications used by the decompositions. -/

theorem ws_cases {x : Char} (h : isJsWs x = true) :
    x = ' ' ∨ x = '\t' ∨ x = '\n' ∨ x = '\r' ∨ x = '\x0b' ∨ x = '\x0c' := by
  simpa [isJsWs, or_assoc] using h

theorem ws_not_lt {x : Char} (h : isJsWs x = true) : x ≠ '<' := by
  rcases ws_cases h with rfl | rfl | rfl | rfl | rfl | rfl <;> decide

theorem ws_toLower_ne_i {x : Char} (h : isJsWs x = true) : x.toLower ≠ 'i' := by
  rcases ws_cases h with rfl | rfl | rfl | rfl | rfl | rfl <;> decide

theorem lit_not_lt {lit : List Char} (h : lit.map Char.toLower = infoChars) :
    ∀ x ∈ lit, x ≠ '<' := by
  intro x hx heq
  subst heq
  have : Char.toLower '<' ∈ lit.map Char.toLower := List.mem_map_of_mem _ hx
  rw [h] at this
  exact absurd this (by decide)

theorem litHead_shape {lit : List Char} (h : lit.map Char.toLower = infoChars) :
    ∃ l0 lit', lit = l0 :: lit' ∧ l0.toLower = 'i' ∧ isJsWs l0 = false := by
  cases lit with
  | nil => simp [infoChars] at h
  | cons l0 lit' =>
    simp only [List.map_cons, infoChars, List.cons.injEq] at h
    refine ⟨l0, lit', rfl, h.1, ?_⟩
    by_cases hw : isJsWs l0 = true
    · exact absurd h.1 (ws_toLower_ne_i hw)
    · simpa using hw

/-! Decompositions of successful matches. -/

theorem skipWs_decomp :
    ∀ s : List Char, ∃ w, s = w ++ skipWs s ∧ ∀ x ∈ w, isJsWs x = true := by
  intro s
  induction s with
  | nil => exact ⟨[], rfl, by simp⟩
  | cons c cs ih =>
    by_cases hw : isJsWs c = true
    · obtain ⟨w, hw1, hw2⟩ := ih
      refine ⟨c :: w, ?_, ?_⟩
      · simp only [skipWs, hw, if_true, List.cons_append]
        exact congrArg (c :: ·) hw1
      · intro x hx
        rcases List.mem_cons.mp hx with rfl | hx'
        · exact hw
        · exact hw2 x hx'
    · refine ⟨[], ?_, by simp⟩
      simp only [Bool.not_eq_true] at hw
      simp [skipWs, hw]

theorem matchCI_decomp :
    ∀ (lit s r : List Char), matchCI lit s = some r →
      ∃ pre, s = pre ++ r ∧ pre.map Char.toLower = lit := by
  intro lit
  induction lit with
  | nil =>
    intro s r h
    simp only [matchCI, Option.some.injEq] at h
    exact ⟨[], by simp [h], rfl⟩
  | cons l ls ih =>
    intro s r h
    cases s with
    | nil => simp [matchCI] at h
    | cons c cs =>
      simp only [matchCI] at h
      by_cases hc : c.toLower = l
      · rw [if_pos hc] at h
        obtain ⟨pre, hp1, hp2⟩ := ih cs r h
        exact ⟨c :: pre, by simp [hp1], by simp [hp2, hc]⟩
      · rw [if_neg hc] at h
        exact absurd h (by simp)

theorem tryOpen_inv {s r : List Char} (h : tryOpen s = some r) :
    ∃ rest, s = '<' :: rest ∧ openBody rest = some r := by
  unfold tryOpen at h
  split at h
  · exact absurd h (by simp)
  · rename_i c rest
    split at h
    · rename_i hc
      subst hc
      exact ⟨rest, rfl, h⟩
    · exact absurd h (by simp)

theorem openBody_inv {s r : List Char} (h : openBody s = some r) :
    ∃ after, matchCI infoChars (skipWs s) = some after ∧ openAfterLit after = some r := by
  unfold openBody at h
  split at h
  · exact absurd h (by simp)
  · rename_i after heq
    exact ⟨after, heq, h⟩

theorem tryClose_inv {s r : List Char} (h : tryClose s = some r) :
    ∃ rest, s = '<' :: rest ∧ closeBody rest = some r := by
  unfold tryClose at h
  split at h
  · exact absurd h (by simp)
  · rename_i c rest
    split at h
    · rename_i hc
      subst hc
      exact ⟨rest, rfl, h⟩
    · exact absurd h (by simp)

theorem closeBody_inv {s r : List Char} (h : closeBody s = some r) :
    ∃ r2, skipWs s = '/' :: r2 ∧ closeAfterSlash r2 = some r := by
  unfold closeBody at h
  split at h
  · exact absurd h (by simp)
  · rename_i c2 r2 heq
    split at h
    · rename_i hc2
      subst hc2
      exact ⟨r2, heq, h⟩
    · exact absurd h (by simp)

theorem closeAfterSlash_inv {r2 r : List Char} (h : closeAfterSlash r2 = some r) :
    ∃ after, matchCI infoChars (skipWs r2) = some after ∧ closeAfterLit after = some r := by
  unfold closeAfterSlash at h
  split at h
  · exact absurd h (by simp)
  · rename_i after heq
    exact ⟨after, heq, h⟩

theorem closeAfterLit_inv {after r : List Char} (h : closeAfterLit after = some r) :
    skipWs after = '>' :: r := by
  unfold closeAfterLit at h
  split at h
  · exact absurd h (by simp)
  · rename_i c3 r3 heq
    split at h
    · rename_i hc3
      subst hc3
      have hr : r3 = r := by simpa using h
      rw [heq, hr]
    · exact absurd h (by simp)

theorem tryOpen_shape :
    ∀ s r : List Char, tryOpen s = some r →
      ∃ c2 t, s = '<' :: c2 :: t ∧ (isJsWs c2 = true ∨ c2.toLower = 'i') := by
  intro s r h
  obtain ⟨rest, rfl, hb⟩ := tryOpen_inv h
  obtain ⟨after, hm, -⟩ := openBody_inv hb
  cases rest with
  | nil => simp [skipWs, matchCI, infoChars] at hm
  | cons c2 t =>
    by_cases hw : isJsWs c2 = true
    · exact ⟨c2, t, rfl, Or.inl hw⟩
    · refine ⟨c2, t, rfl, Or.inr ?_⟩
      simp only [Bool.not_eq_true] at hw
      rw [show skipWs (c2 :: t) = c2 :: t from by simp [skipWs, hw]] at hm
      by_cases hi : c2.toLower = 'i'
      · exact hi
      · rw [show infoChars = 'i' :: ['n', 'f', 'o', 'r', 'm', 'a', 't', 'i', 'o', 'n']
          from rfl] at hm
        simp only [matchCI] at hm
        rw [if_neg hi] at hm
        exact absurd hm (by simp)

theorem tryClose_decomp :
    ∀ s r : List Char, tryClose s = some r →
      ∃ w1 w2 lit w3,
        s = '<' :: (w1 ++ '/' :: (w2 ++ (lit ++ (w3 ++ '>' :: r))))
        ∧ (∀ x ∈ w1, isJsWs x = true) ∧ (∀ x ∈ w2, isJsWs x = true)
        ∧ (∀ x ∈ w3, isJsWs x = true) ∧ lit.map Char.toLower = infoChars := by
  intro s r h
  obtain ⟨rest, rfl, hb⟩ := tryClose_inv h
  obtain ⟨r2, hs, hsl⟩ := closeBody_inv hb
  obtain ⟨after, hm, hal⟩ := closeAfterSlash_inv hsl
  have ha := closeAfterLit_inv hal
  obtain ⟨w1, hw1eq, hw1ws⟩ := skipWs_decomp rest
  obtain ⟨w2, hw2eq, hw2ws⟩ := skipWs_decomp r2
  obtain ⟨lit, hliteq, hlitmap⟩ := matchCI_decomp _ _ _ hm
  obtain ⟨w3, hw3eq, hw3ws⟩ := skipWs_decomp after
  refine ⟨w1, w2, lit, w3, ?_, hw1ws, hw2ws, hw3ws, hlitmap⟩
  rw [hs] at hw1eq
  rw [ha] at hw3eq
  rw [hw3eq] at hliteq
  rw [hliteq] at hw2eq
  rw [hw2eq] at hw1eq
  rw [hw1eq]

/-! Reconstruction: the decomposed shape matches again whatever follows the
`>`, which is how the closing rewrite finds the tag after the opening
rewrite has passed over the `<`-free match body. -/

theorem skipWs_past_ws {w : List Char} (hw : ∀ x ∈ w, isJsWs x = true)
    {y : Char} (hy : isJsWs y = false) (ys : List Char) :
    skipWs (w ++ y :: ys) = y :: ys := by
  induction w with
  | nil => simp [skipWs, hy]
  | cons c w' ih =>
    have hc : isJsWs c = true := hw c (by simp)
    simp only [List.cons_append, skipWs, hc, if_true]
    exact ih (fun x hx => hw x (by simp [hx]))

theorem matchCI_self :
    ∀ (lit target : List Char), lit.map Char.toLower = target →
      ∀ u, matchCI target (lit ++ u) = some u := by
  intro lit
  induction lit with
  | nil =>
    intro target h u
    simp only [List.map_nil] at h
    subst h
    rfl
  | cons l ls ih =>
    intro target h u
    simp only [List.map_cons] at h
    subst h
    simp only [List.cons_append, matchCI, if_pos rfl]
    exact ih _ rfl u

theorem tryOpen_lt_unfold (rest : List Char) : tryOpen ('<' :: rest) = openBody rest := by
  simp [tryOpen]

theorem tryClose_lt_unfold (rest : List Char) : tryClose ('<' :: rest) = closeBody rest := by
  simp [tryClose]

theorem closeBody_step {s r2' : List Char} (hs : skipWs s = '/' :: r2') :
    closeBody s = closeAfterSlash r2' := by
  simp [closeBody, hs]

theorem closeAfterSlash_step {r2 after : List Char}
    (hm : matchCI infoChars (skipWs r2) = some after) :
    closeAfterSlash r2 = closeAfterLit after := by
  simp [closeAfterSlash, hm]

theorem closeAfterLit_step {after u : List Char} (ha : skipWs after = '>' :: u) :
    closeAfterLit after = some u := by
  simp [closeAfterLit, ha]

theorem tryClose_of_parts {w1 w2 lit w3 : List Char}
    (h1 : ∀ x ∈ w1, isJsWs x = true) (h2 : ∀ x ∈ w2, isJsWs x = true)
    (h3 : ∀ x ∈ w3, isJsWs x = true) (hl : lit.map Char.toLower = infoChars)
    (u : List Char) :
    tryClose ('<' :: (w1 ++ '/' :: (w2 ++ (lit ++ (w3 ++ '>' :: u))))) = some u := by
  obtain ⟨l0, lit', hlit, hl0, hl0ws⟩ := litHead_shape hl
  rw [tryClose_lt_unfold]
  rw [closeBody_step (skipWs_past_ws h1 (by decide) _)]
  have hs2 : skipWs (w2 ++ (lit ++ (w3 ++ '>' :: u))) = lit ++ (w3 ++ '>' :: u) := by
    calc skipWs (w2 ++ (lit ++ (w3 ++ '>' :: u)))
        = skipWs (w2 ++ (l0 :: (lit' ++ (w3 ++ '>' :: u)))) := by rw [hlit]; simp
      _ = l0 :: (lit' ++ (w3 ++ '>' :: u)) := skipWs_past_ws h2 hl0ws _
      _ = lit ++ (w3 ++ '>' :: u) := by rw [hlit]; simp
  rw [closeAfterSlash_step (by rw [hs2]; exact matchCI_self lit infoChars hl _)]
  exact closeAfterLit_step (skipWs_past_ws h3 (by decide) _)

/-! The replacement texts never equal what they replace. -/

theorem openRepl_append_ne {c2 : Char} (hc : isJsWs c2 = true ∨ c2.toLower = 'i')
    (t Y : List Char) : openRepl ++ Y ≠ '<' :: c2 :: t := by
  intro h
  have he : openRepl = '<' :: 'd' ::
      ['i', 'v', ' ', 'c', 'l', 'a', 's', 's', '=', '\"', 'i', 'n', 'f', 'o',
        'r', 'm', 'a', 't', 'i', 'o', 'n', '\"', '>'] := by decide
  rw [he] at h
  simp only [List.cons_append, List.cons.injEq] at h
  obtain ⟨-, hdc, -⟩ := h
  rcases hc with hw | hi
  · rw [← hdc] at hw
    exact absurd hw (by decide)
  · rw [← hdc] at hi
    exact absurd hi (by decide)

theorem closeRepl_parts_ne {w1 w2 lit w3 : List Char}
    (h1 : ∀ x ∈ w1, isJsWs x = true) (h2 : ∀ x ∈ w2, isJsWs x = true)
    (hl : lit.map Char.toLower = infoChars) (r Y : List Char) :
    closeRepl ++ Y ≠ '<' :: (w1 ++ '/' :: (w2 ++ (lit ++ (w3 ++ '>' :: r)))) := by
  intro h
  have he : closeRepl = '<' :: '/' :: 'd' :: 'i' :: 'v' :: '>' :: [] := by decide
  rw [he] at h
  simp only [List.cons_append, List.cons.injEq] at h
  obtain ⟨-, hrest⟩ := h
  cases w1 with
  | cons w w1' =>
    simp only [List.cons_append, List.cons.injEq] at hrest
    have hw : isJsWs w = true := h1 w (by simp)
    rw [← hrest.1] at hw
    exact absurd hw (by decide)
  | nil =>
    simp only [List.nil_append, List.cons.injEq] at hrest
    obtain ⟨-, hrest2⟩ := hrest
    cases w2 with
    | cons w w2' =>
      simp only [List.cons_append, List.cons.injEq] at hrest2
      have hw : isJsWs w = true := h2 w (by simp)
      rw [← hrest2.1] at hw
      exact absurd hw (by decide)
    | nil =>
      obtain ⟨l0, lit', hlit, hl0, -⟩ := litHead_shape hl
      rw [hlit] at hrest2
      simp only [List.nil_append, List.cons_append, List.cons.injEq] at hrest2
      rw [← hrest2.1] at hl0
      exact absurd hl0 (by decide)

/-! The closing rewrite passes over an inserted opening replacement
verbatim, and the closing parser is insensitive to what follows an
`ltBoundary` tail. -/

theorem skipWs_cons_nws {c : Char} (h : isJsWs c = false) (cs : List Char) :
    skipWs (c :: cs) = c :: cs := by
  simp [skipWs, h]

theorem closeBody_not_slash {s : List Char} {c2 : Char} {r2 : List Char}
    (hs : skipWs s = c2 :: r2) (hc : c2 ≠ '/') : closeBody s = none := by
  simp [closeBody, hs, hc]

theorem openRepl_eq :
    openRepl = '<' :: ('d' :: ['i', 'v', ' ', 'c', 'l', 'a', 's', 's', '=', '\"',
      'i', 'n', 'f', 'o', 'r', 'm', 'a', 't', 'i', 'o', 'n', '\"', '>']) := by
  decide

theorem replaceClose_openRepl :
    ∀ u, replaceClose (openRepl ++ u) = openRepl ++ replaceClose u := by
  intro u
  rw [openRepl_eq, List.cons_append]
  have hnone : tryClose ('<' :: (('d' :: ['i', 'v', ' ', 'c', 'l', 'a', 's', 's', '=', '\"',
      'i', 'n', 'f', 'o', 'r', 'm', 'a', 't', 'i', 'o', 'n', '\"', '>']) ++ u)) = none := by
    rw [tryClose_lt_unfold, List.cons_append]
    exact closeBody_not_slash (skipWs_cons_nws (by decide) _) (by decide)
  rw [replaceClose_cons_none hnone]
  rw [replaceClose_append_nolt ('d' :: ['i', 'v', ' ', 'c', 'l', 'a', 's', 's', '=', '\"',
      'i', 'n', 'f', 'o', 'r', 'm', 'a', 't', 'i', 'o', 'n', '\"', '>']) (by decide) u]
  simp

theorem replaceOpen_decomp :
    ∀ cs : List Char, ∃ P t t', cs = P ++ t ∧ replaceOpen cs = P ++ t'
      ∧ ltBoundary t ∧ ltBoundary t' := by
  intro cs
  induction cs with
  | nil =>
    exact ⟨[], [], [], by simp, by simp [replaceOpen_nil], Or.inl rfl, Or.inl rfl⟩
  | cons c cs' ih =>
    cases htry : tryOpen (c :: cs') with
    | some r =>
      obtain ⟨c2, t0, heq, -⟩ := tryOpen_shape _ _ htry
      refine ⟨[], c :: cs', openRepl ++ replaceOpen r, by simp,
        by simp [replaceOpen_cons_some htry], ?_, ?_⟩
      · exact Or.inr ⟨c2 :: t0, heq⟩
      · refine Or.inr ⟨('d' :: ['i', 'v', ' ', 'c', 'l', 'a', 's', 's', '=', '\"',
          'i', 'n', 'f', 'o', 'r', 'm', 'a', 't', 'i', 'o', 'n', '\"', '>'])
            ++ replaceOpen r, ?_⟩
        rw [openRepl_eq]
        simp
    | none =>
      obtain ⟨P, t, t', h1, h2, h3, h4⟩ := ih
      refine ⟨c :: P, t, t', by simp [h1], ?_, h3, h4⟩
      rw [replaceOpen_cons_none htry, h2]
      rfl

theorem skipWs_append_bd {t : List Char} (ht : ltBoundary t) :
    ∀ P, skipWs (P ++ t) = skipWs P ++ t := by
  intro P
  induction P with
  | nil =>
    simp only [List.nil_append]
    rcases ht with rfl | ⟨u, rfl⟩
    · rfl
    · exact skipWs_cons_nws (by decide) u
  | cons c P' ih =>
    by_cases hw : isJsWs c = true
    · simp only [List.cons_append, skipWs, hw, if_true]
      exact ih
    · simp only [Bool.not_eq_true] at hw
      simp only [List.cons_append, skipWs_cons_nws hw]

theorem matchCI_append_bd {t : List Char} (ht : ltBoundary t) :
    ∀ (lit : List Char), '<' ∉ lit →
      ∀ P, matchCI lit (P ++ t) = (matchCI lit P).map (· ++ t) := by
  intro lit
  induction lit with
  | nil => intro _ P; rfl
  | cons l ls ih =>
    intro hlit P
    cases P with
    | nil =>
      simp only [List.nil_append]
      rcases ht with rfl | ⟨u, rfl⟩
      · rfl
      · show matchCI (l :: ls) ('<' :: u) = Option.map (· ++ '<' :: u) none
        simp only [matchCI, Option.map_none']
        rw [if_neg]
        intro hlow
        have hne : l ≠ '<' := fun hq => hlit (by simp [hq])
        rw [show Char.toLower '<' = '<' from by decide] at hlow
        exact hne hlow.symm
    | cons p P' =>
      simp only [List.cons_append, matchCI]
      by_cases hp : p.toLower = l
      · rw [if_pos hp, if_pos hp]
        exact ih (fun hx => hlit (List.mem_cons_of_mem _ hx)) P'
      · rw [if_neg hp, if_neg hp]
        rfl

theorem closeBody_skip_nil {s : List Char} (hs : skipWs s = []) : closeBody s = none := by
  simp [closeBody, hs]

theorem closeBody_skip_cons {s : List Char} {c2 : Char} {r2 : List Char}
    (hs : skipWs s = c2 :: r2) :
    closeBody s = if c2 = '/' then closeAfterSlash r2 else none := by
  simp [closeBody, hs]

theorem closeAfterLit_append_bd {t : List Char} (ht : ltBoundary t) :
    ∀ after, closeAfterLit (after ++ t) = (closeAfterLit after).map (· ++ t) := by
  intro after
  unfold closeAfterLit
  rw [skipWs_append_bd ht after]
  cases ha : skipWs after with
  | nil =>
    simp only [ha, List.nil_append]
    rcases ht with rfl | ⟨u, rfl⟩
    · rfl
    · show (if ('<' : Char) = '>' then some u else none) = Option.map (· ++ '<' :: u) none
      rw [if_neg (by decide)]
      rfl
  | cons c3 r3 =>
    simp only [ha, List.cons_append]
    by_cases hc3 : c3 = '>'
    · rw [if_pos hc3, if_pos hc3]
      rfl
    · rw [if_neg hc3, if_neg hc3]
      rfl

theorem closeAfterSlash_append_bd {t : List Char} (ht : ltBoundary t) :
    ∀ r2, closeAfterSlash (r2 ++ t) = (closeAfterSlash r2).map (· ++ t) := by
  intro r2
  unfold closeAfterSlash
  rw [skipWs_append_bd ht r2]
  rw [matchCI_append_bd ht infoChars (by decide) (skipWs r2)]
  cases hm : matchCI infoChars (skipWs r2) with
  | none => simp [hm]
  | some after =>
    simp only [hm, Option.map_some']
    exact closeAfterLit_append_bd ht after

theorem closeBody_append_bd {t : List Char} (ht : ltBoundary t) :
    ∀ s, closeBody (s ++ t) = (closeBody s).map (· ++ t) := by
  intro s
  cases hsp : skipWs s with
  | nil =>
    have hspt : skipWs (s ++ t) = t := by
      rw [skipWs_append_bd ht s, hsp]
      rfl
    rw [closeBody_skip_nil hsp]
    rcases ht with rfl | ⟨u, rfl⟩
    · rw [closeBody_skip_nil hspt]
      rfl
    · rw [closeBody_skip_cons hspt, if_neg (by decide)]
      rfl
  | cons c2 r2 =>
    have hspt : skipWs (s ++ t) = c2 :: (r2 ++ t) := by
      rw [skipWs_append_bd ht s, hsp]
      rfl
    rw [closeBody_skip_cons hspt, closeBody_skip_cons hsp]
    by_cases hc2 : c2 = '/'
    · rw [if_pos hc2, if_pos hc2]
      exact closeAfterSlash_append_bd ht r2
    · rw [if_neg hc2, if_neg hc2]
      rfl

/-! The main characterisation: the two-pass rewrite fixes exactly the texts
holding no tag of either kind. -/

theorem sanitize_list_iff :
    ∀ (n : Nat) (s : List Char), s.length ≤ n →
      (replaceClose (replaceOpen s) = s ↔
        (hasOpenTag s = false ∧ hasCloseTag s = false)) := by
  intro n
  induction n with
  | zero =>
    intro s hs
    have hnil : s = [] := List.eq_nil_of_length_eq_zero (Nat.le_zero.mp hs)
    subst hnil
    simp [replaceOpen_nil, replaceClose_nil, hasOpenTag, hasCloseTag]
  | succ n ih =>
    intro s hs
    cases s with
    | nil => simp [replaceOpen_nil, replaceClose_nil, hasOpenTag, hasCloseTag]
    | cons c cs =>
      cases hO : tryOpen (c :: cs) with
      | some r =>
        have hne : replaceClose (replaceOpen (c :: cs)) ≠ c :: cs := by
          rw [replaceOpen_cons_some hO, replaceClose_openRepl]
          obtain ⟨c2, t0, heq, hcond⟩ := tryOpen_shape _ _ hO
          rw [heq]
          exact openRepl_append_ne hcond t0 _
        have hhas : hasOpenTag (c :: cs) = true := by simp [hasOpenTag, hO]
        constructor
        · intro h
          exact absurd h hne
        · rintro ⟨h1, -⟩
          rw [hhas] at h1
          exact absurd h1 (by simp)
      | none =>
        cases hC : tryClose (c :: cs) with
        | some r =>
          obtain ⟨w1, w2, lit, w3, heq, hw1, hw2, hw3, hl⟩ := tryClose_decomp _ _ hC
          have hhas : hasCloseTag (c :: cs) = true := by simp [hasCloseTag, hC]
          have hne : replaceClose (replaceOpen (c :: cs)) ≠ c :: cs := by
            injection heq with hc hcs
            subst hc
            subst hcs
            rw [replaceOpen_cons_none hO]
            have hfree : ∀ x ∈ w1 ++ '/' :: (w2 ++ (lit ++ (w3 ++ ['>']))), x ≠ '<' := by
              intro x hx
              simp only [List.mem_append, List.mem_cons, List.mem_singleton] at hx
              rcases hx with hx1 | rfl | hx2 | hx3 | hx4 | rfl | hx5
              · exact ws_not_lt (hw1 x hx1)
              · decide
              · exact ws_not_lt (hw2 x hx2)
              · exact lit_not_lt hl x hx3
              · exact ws_not_lt (hw3 x hx4)
              · decide
              · exact absurd hx5 (by simp)
            have hsplit : w1 ++ '/' :: (w2 ++ (lit ++ (w3 ++ '>' :: r)))
                = (w1 ++ '/' :: (w2 ++ (lit ++ (w3 ++ ['>'])))) ++ r := by
              simp [List.append_assoc]
            rw [hsplit, replaceOpen_append_nolt _ hfree r]
            have hjoin : (w1 ++ '/' :: (w2 ++ (lit ++ (w3 ++ ['>'])))) ++ replaceOpen r
                = w1 ++ '/' :: (w2 ++ (lit ++ (w3 ++ '>' :: replaceOpen r))) := by
              simp [List.append_assoc]
            rw [hjoin,
              replaceClose_cons_some (tryClose_of_parts hw1 hw2 hw3 hl (replaceOpen r))]
            rw [← hsplit]
            exact closeRepl_parts_ne hw1 hw2 hl r _
          constructor
          · intro h
            exact absurd h hne
          · rintro ⟨-, h2⟩
            rw [hhas] at h2
            exact absurd h2 (by simp)
        | none =>
          have hstep : tryClose (c :: replaceOpen cs) = none := by
            by_cases hc : c = '<'
            · subst hc
              obtain ⟨P, t, t', hPt, hPt', hbt, hbt'⟩ := replaceOpen_decomp cs
              cases hcb : closeBody (replaceOpen cs) with
              | none =>
                rw [tryClose_lt_unfold]
                exact hcb
              | some y =>
                exfalso
                rw [hPt', closeBody_append_bd hbt' P] at hcb
                cases hcp : closeBody P with
                | none =>
                  rw [hcp] at hcb
                  simp at hcb
                | some z =>
                  have hcs2 : closeBody cs = some (z ++ t) := by
                    rw [hPt, closeBody_append_bd hbt P, hcp]
                    rfl
                  have hcon : tryClose ('<' :: cs) = some (z ++ t) := by
                    rw [tryClose_lt_unfold]
                    exact hcs2
                  rw [hC] at hcon
                  exact absurd hcon (by simp)
            · exact tryClose_not_lt hc _
          rw [replaceOpen_cons_none hO, replaceClose_cons_none hstep]
          have hOt : hasOpenTag (c :: cs) = hasOpenTag cs := by simp [hasOpenTag, hO]
          have hCt : hasCloseTag (c :: cs) = hasCloseTag cs := by simp [hasCloseTag, hC]
          rw [hOt, hCt]
          have hlen : cs.length ≤ n := by
            simp only [List.length_cons] at hs
            omega
          simp only [List.cons.injEq, true_and]
          exact ih cs hlen

/-- The string-level form of the characterisation. -/
theorem sanitize_eq_iff (md : String) :
    sanitizeHtmlTags md = md ↔ containsInfoTag md = false := by
  unfold sanitizeHtmlTags
  by_cases hm : md = ""
  · subst hm
    rw [if_pos rfl]
    simp only [eq_self_iff_true, true_iff]
    decide
  · rw [if_neg hm]
    cases md with
    | mk data =>
      unfold containsInfoTag
      rw [show String.toList (String.mk data) = data from rfl]
      rw [show (String.mk (replaceClose (replaceOpen data)) = String.mk data)
          ↔ (replaceClose (replaceOpen data) = data) from
        ⟨fun h => congrArg String.data h, fun h => congrArg String.mk h⟩]
      rw [Bool.or_eq_false_iff]
      exact sanitize_list_iff data.length data (le_refl _)

end WordToMd

/-- C9: the client stores `sanitizeHtmlTags` of the server's markdown — the
global case-insensitive rewrite of every `<information ...>` opening tag to
`<div class="information">` and of every `</information>` closing tag to
`</div>` — and both the rendered preview's source and the downloaded `.md`
content are that stored string; they equal the server's markdown exactly
when it contains no such tag, and differ from it otherwise. -/
theorem c9_sanitize_fixed_iff_no_tags (serverMd : String) :
    (WordToMd.storedMarkdown serverMd = serverMd
      ∧ WordToMd.downloadedMd serverMd = serverMd)
    ↔ WordToMd.containsInfoTag serverMd = false := by
  have hmain := WordToMd.sanitize_eq_iff serverMd
  constructor
  · rintro ⟨h1, -⟩
    exact hmain.mp h1
  · intro h
    have hfix := hmain.mpr h
    exact ⟨hfix, hfix⟩

end Mdutility
